import Mathlib

/-!
Shallow embedding of the linkedin-feed-customizer browser extension.

The repository has two content-script versions: `content.js` (current, called
v2 below) and an older content script (called v1 below), plus `popup.js`.
JavaScript strings are modelled as lists of characters (`JSStr`); the DOM
is modelled as a list of `Post` elements carrying exactly the state the
scripts read and write: the `data-hidden-by-feed-customizer` marker
attribute, the text content, the inline display style, and whether the
element matches the post selectors used by `querySelectorAll`.
-/

set_option maxHeartbeats 1000000

namespace LFC

/-- A JavaScript string, modelled as its sequence of characters. -/
abbrev JSStr := List Char

/-- Build a `JSStr` from a Lean string literal. -/
def str (s : String) : JSStr := s.data

/-- JavaScript `String.prototype.toLowerCase` (ASCII case mapping, matching
the basic-latin mapping of `Char.toLower`). -/
def jsToLower (s : JSStr) : JSStr := s.map Char.toLower

/-- JavaScript `String.prototype.trim`: drop leading and trailing whitespace. -/
def jsTrim (s : JSStr) : JSStr :=
  ((s.dropWhile Char.isWhitespace).reverse.dropWhile Char.isWhitespace).reverse

/-- JavaScript `hay.includes(needle)`: substring (contiguous infix) test. -/
def jsIncludes (hay needle : JSStr) : Bool := decide (needle <:+: hay)

/-- JavaScript `input.split(',')`, accumulator-passing helper. -/
def jsSplitCommaAux : JSStr → JSStr → List JSStr
  | [], acc => [acc.reverse]
  | c :: cs, acc =>
    if c = ',' then acc.reverse :: jsSplitCommaAux cs []
    else jsSplitCommaAux cs (c :: acc)

/-- JavaScript `input.split(',')`. -/
def jsSplitComma (s : JSStr) : List JSStr := jsSplitCommaAux s []

/-- A feed DOM element as seen by the content scripts: the
`data-hidden-by-feed-customizer` marker, `textContent`, `style.display`,
and whether the element matches the post selectors. -/
structure Post where
  hiddenAttr : Bool
  text : JSStr
  display : JSStr
  isPost : Bool
deriving DecidableEq

/-- The content script's counter state: the in-memory `hiddenCount`
variable and the `hiddenCount` value persisted in `chrome.storage.local`. -/
structure ContentState where
  hiddenCount : Nat
  storedHiddenCount : Nat
deriving DecidableEq

/-- content.js `shouldHidePost(post, keywords)`: false for posts already
carrying the marker; otherwise true iff some keyword with non-empty trimmed
form occurs, lowercased, in the post's lowercased text. (Identical logic in
both content-script versions.) -/
def shouldHidePost (post : Post) (keywords : List JSStr) : Bool :=
  if post.hiddenAttr then false
  else
    let textContent := jsToLower post.text
    keywords.any fun keyword =>
      if jsTrim keyword = [] then false
      else jsIncludes textContent (jsToLower keyword)

/-- content.js `hidePost(post)`: skip marked posts; otherwise set the
marker, set `display` to `none`, increment the counter and persist it.
(Identical logic in both content-script versions.) -/
def hidePost (post : Post) (st : ContentState) : Post × ContentState :=
  if post.hiddenAttr then (post, st)
  else
    ({ post with hiddenAttr := true, display := str "none" },
     { hiddenCount := st.hiddenCount + 1, storedHiddenCount := st.hiddenCount + 1 })

/-- The per-element body of the `hidePosts` scan, fused with the
`querySelectorAll` selection: an element is processed iff it matches the
post selectors (`isPost`), and hidden iff `shouldHidePost` holds. -/
def hidePostsGo (keywords : List JSStr) : List Post → ContentState → List Post × ContentState
  | [], st => ([], st)
  | p :: rest, st =>
    if p.isPost && shouldHidePost p keywords then
      let r := hidePost p st
      let rr := hidePostsGo keywords rest r.2
      (r.1 :: rr.1, rr.2)
    else
      let rr := hidePostsGo keywords rest st
      (p :: rr.1, rr.2)

/-- content.js `hidePosts(keywords)`: return immediately when the keyword
list is missing (`none`, the JS null/undefined case) or empty, otherwise
scan all elements matching the post selectors. The v1 script iterates its
selector list one selector at a time, but marker-checking makes repeat
visits no-ops, so both versions are this single fused scan over the
elements matching their selectors (abstracted by `isPost`). -/
def hidePosts (keywords : Option (List JSStr)) (doc : List Post) (st : ContentState) :
    List Post × ContentState :=
  match keywords with
  | none => (doc, st)
  | some ks => if ks.length = 0 then (doc, st) else hidePostsGo ks doc st

/-- The page-level state a content script manipulates: the document's
elements, the `currentEnabled` and `currentKeywords` variables, and the
counter state. -/
structure PageState where
  doc : List Post
  enabled : Bool
  keywords : List JSStr
  cs : ContentState
deriving DecidableEq

/-- content.js (v2) `onMessage` handler for `updateKeywords`: store the new
keywords (null becomes `[]`), remove the marker and restore the display of
every marked element, reset the counter to 0 and persist the reset, then
rerun `hidePosts` when the filter is enabled and the keyword list is
non-empty. -/
def onUpdateKeywordsV2 (ks : Option (List JSStr)) (st : PageState) : PageState :=
  let kws := ks.getD []
  let doc1 := st.doc.map fun p =>
    if p.hiddenAttr then { p with hiddenAttr := false, display := str "" } else p
  let cs1 : ContentState := { hiddenCount := 0, storedHiddenCount := 0 }
  if st.enabled ∧ 0 < kws.length then
    let r := hidePosts (some kws) doc1 cs1
    { doc := r.1, enabled := st.enabled, keywords := kws, cs := r.2 }
  else
    { doc := doc1, enabled := st.enabled, keywords := kws, cs := cs1 }

/-- Older content script (v1) `onMessage` handler for `updateKeywords`:
store the new keywords (null becomes `[]`) and run an additional
`hidePosts` pass — no marker removal, no display restore, no counter
reset, and no `currentEnabled` check. -/
def onUpdateKeywordsV1 (ks : Option (List JSStr)) (st : PageState) : PageState :=
  let kws := ks.getD []
  let r := hidePosts (some kws) st.doc st.cs
  { doc := r.1, enabled := st.enabled, keywords := kws, cs := r.2 }

/-- content.js (v2) `onMessage` handler for `toggleEnabled`: when disabling,
restore the display of every element carrying the marker (the marker itself
is left in place); when enabling, rerun `hidePosts` with the current
keywords. -/
def onToggleEnabled (enabled : Bool) (st : PageState) : PageState :=
  if enabled then
    let r := hidePosts (some st.keywords) st.doc st.cs
    { doc := r.1, enabled := true, keywords := st.keywords, cs := r.2 }
  else
    { st with
      enabled := false,
      doc := st.doc.map fun p =>
        if p.hiddenAttr then { p with display := str "" } else p }

/-- The relevant keys of `chrome.storage.local`; `none` models an absent key. -/
structure StorageData where
  keywords : Option (List JSStr)
  isEnabled : Option Bool
  hiddenCount : Option Nat
deriving DecidableEq

/-- The content script's settings after `initializeExtension` reads storage. -/
structure InitState where
  currentEnabled : Bool
  currentKeywords : List JSStr
  hiddenCount : Nat
deriving DecidableEq

/-- content.js `initializeExtension`: load settings from storage
(`isEnabled !== false` defaults the toggle to true, keywords default to
`[]`, the counter to 0), then run the initial `hidePosts` pass only when
the filter is enabled and the keyword list is non-empty (the delayed
1000 ms pass is guarded by the same condition). -/
def initializeExtension (s : StorageData) (doc : List Post) : InitState × List Post :=
  let currentEnabled := s.isEnabled != some false
  let currentKeywords := s.keywords.getD []
  let hiddenCount := s.hiddenCount.getD 0
  let doc1 :=
    if currentEnabled ∧ 0 < currentKeywords.length then
      (hidePosts (some currentKeywords) doc
        { hiddenCount := hiddenCount, storedHiddenCount := hiddenCount }).1
    else doc
  ({ currentEnabled := currentEnabled, currentKeywords := currentKeywords,
     hiddenCount := hiddenCount }, doc1)

/-- The popup's state after `loadKeywords`: its keyword array, the checked
state of the enable toggle, and the hidden count shown by `updateStats`. -/
structure PopupState where
  keywords : List JSStr
  toggleChecked : Bool
  statsHiddenCount : Nat
deriving DecidableEq

/-- popup.js `loadKeywords`: keywords default to `[]`, the toggle is checked
unless the stored `isEnabled` is exactly `false`, and the stats display
defaults to 0. -/
def loadKeywords (s : StorageData) : PopupState :=
  { keywords := s.keywords.getD [],
    toggleChecked := s.isEnabled != some false,
    statsHiddenCount := s.hiddenCount.getD 0 }

/-- popup.js `addKeyword`: normalize the input (`trim` then `toLowerCase`),
reject empty input, input longer than 100 characters, or a list already
holding 50 or more keywords; otherwise split the input at commas, trim each
piece, keep the non-empty pieces not already in the list, and append them. -/
def addKeyword (keywords : List JSStr) (rawInput : JSStr) : List JSStr :=
  let input := jsToLower (jsTrim rawInput)
  if input = [] then keywords
  else if 100 < input.length then keywords
  else if 50 ≤ keywords.length then keywords
  else
    let newKeywords := ((jsSplitComma input).map jsTrim).filter fun k =>
      decide (0 < k.length) && !(keywords.contains k)
    if newKeywords = [] then keywords
    else keywords ++ newKeywords

/-- popup.js `removeKeyword`: keep every keyword different from the removed one. -/
def removeKeyword (keywords : List JSStr) (keyword : JSStr) : List JSStr :=
  keywords.filter fun k => k ≠ keyword

/-- popup.js `importSettings`: when the parsed file carries a keywords
array, install it verbatim as the new list; when it does not (`none`, the
invalid-format case), the current list is kept. -/
def importSettings (current : List JSStr) (imported : Option (List JSStr)) : List JSStr :=
  match imported with
  | none => current
  | some ks => ks

/-- State of the v2 mutation-observer machinery: the pending debounce
deadline (if a timer is scheduled), the accumulated `postsToCheck` set,
and the log of processing passes (fire time paired with the batch
processed). -/
structure ObsState where
  pending : Option Nat
  acc : List Post
  fires : List (Nat × List Post)
deriving DecidableEq

/-- JavaScript `Set.prototype.add` on a list kept duplicate-free in
insertion order. -/
def setAdd (acc : List Post) (p : Post) : List Post :=
  if p ∈ acc then acc else acc ++ [p]

/-- Add every element of a batch to the set. -/
def setAddAll (acc : List Post) (ps : List Post) : List Post := ps.foldl setAdd acc

/-- The v2 debounce timer firing at deadline `d`: when the filter is
enabled, keywords are present and the accumulated set is non-empty, one
processing pass runs over the accumulated set and the set is cleared;
otherwise the callback returns early (without clearing the set). -/
def fireV2 (enabled : Bool) (ks : List JSStr) (d : Nat) (st : ObsState) : ObsState :=
  if enabled ∧ ks ≠ [] ∧ st.acc ≠ [] then
    { pending := none, acc := [], fires := st.fires ++ [(d, st.acc)] }
  else { st with pending := none }

/-- Run the v2 observer over a timeline of mutation batches `(t, posts)` in
time order: a pending timer whose deadline has passed fires first; then the
callback cancels any still-pending timer (`clearTimeout`), adds the batch's
candidate posts to `postsToCheck`, and schedules processing at `t + 100`.
After the last batch a still-pending timer fires at its deadline. -/
def runObsV2 (enabled : Bool) (ks : List JSStr) :
    List (Nat × List Post) → ObsState → ObsState
  | [], st =>
    match st.pending with
    | some d => fireV2 enabled ks d st
    | none => st
  | (t, ps) :: rest, st =>
    let st1 :=
      match st.pending with
      | some d => if d ≤ t then fireV2 enabled ks d st else { st with pending := none }
      | none => st
    runObsV2 enabled ks rest
      { st1 with pending := some (t + 100), acc := setAddAll st1.acc ps }

/-- State of the v1 mutation-observer machinery: the pending debounce
deadline, the mutation batch captured by the callback that scheduled the
pending timer (v1's debounced body closes over that single `mutations`
argument), and the log of processing passes. -/
structure ObsV1State where
  pending : Option Nat
  batch : List Post
  fires : List (Nat × List Post)
deriving DecidableEq

/-- The v1 debounce timer firing at deadline `d`: the body iterates the
captured batch unconditionally. -/
def fireV1 (d : Nat) (st : ObsV1State) : ObsV1State :=
  { pending := none, batch := st.batch, fires := st.fires ++ [(d, st.batch)] }

/-- Run the v1 observer over a timeline of mutation batches: each callback
cancels any pending timer and schedules processing of its own batch at
`t + 100`, replacing (not accumulating) the previously captured batch. -/
def runObsV1 : List (Nat × List Post) → ObsV1State → ObsV1State
  | [], st =>
    match st.pending with
    | some d => fireV1 d st
    | none => st
  | (t, ps) :: rest, st =>
    let st1 :=
      match st.pending with
      | some d => if d ≤ t then fireV1 d st else { st with pending := none }
      | none => st
    runObsV1 rest { st1 with pending := some (t + 100), batch := ps }

/-- A timeline is a burst with respect to deadline `d` when each event
arrives strictly before the deadline scheduled by its predecessor. -/
def burstAfter : Nat → List (Nat × List Post) → Bool
  | _, [] => true
  | d, (t, _) :: rest => decide (t < d) && burstAfter (t + 100) rest

/-- The deadline pending after the last event of a timeline, starting from
deadline `d`. -/
def finalDeadline : Nat → List (Nat × List Post) → Nat
  | d, [] => d
  | _, (t, _) :: rest => finalDeadline (t + 100) rest

/-! Helper lemmas shared by the claim theorems. -/

theorem shouldHidePost_nil (p : Post) : shouldHidePost p [] = false := by
  unfold shouldHidePost
  cases p.hiddenAttr <;> simp

theorem shouldHidePost_of_marked (p : Post) (ks : List JSStr) (h : p.hiddenAttr = true) :
    shouldHidePost p ks = false := by
  unfold shouldHidePost
  rw [h]
  simp

theorem hiddenAttr_false_of_shouldHide (p : Post) (ks : List JSStr)
    (h : shouldHidePost p ks = true) : p.hiddenAttr = false := by
  cases hA : p.hiddenAttr
  · rfl
  · rw [shouldHidePost_of_marked p ks hA] at h
    exact absurd h (by simp)

theorem hidePost_of_marked (p : Post) (st : ContentState) (h : p.hiddenAttr = true) :
    hidePost p st = (p, st) := by
  unfold hidePost
  rw [h]
  simp

theorem hidePost_of_unmarked (p : Post) (st : ContentState) (h : p.hiddenAttr = false) :
    hidePost p st =
      ({ p with hiddenAttr := true, display := str "none" },
       { hiddenCount := st.hiddenCount + 1, storedHiddenCount := st.hiddenCount + 1 }) := by
  unfold hidePost
  rw [h]
  simp

theorem hidePostsGo_fst (ks : List JSStr) :
    ∀ (doc : List Post) (st : ContentState),
      (hidePostsGo ks doc st).1 =
        doc.map fun p =>
          if p.isPost && shouldHidePost p ks then
            { p with hiddenAttr := true, display := str "none" }
          else p := by
  intro doc
  induction doc with
  | nil => intro st; rfl
  | cons p rest ih =>
    intro st
    unfold hidePostsGo
    by_cases h : (p.isPost && shouldHidePost p ks) = true
    · rw [if_pos h]
      have hA : p.hiddenAttr = false := by
        have hh := h
        simp only [Bool.and_eq_true] at hh
        exact hiddenAttr_false_of_shouldHide p ks hh.2
      simp only [List.map_cons, if_pos h, hidePost_of_unmarked p st hA, ih]
    · rw [if_neg h]
      simp only [List.map_cons, if_neg h, ih]

theorem hidePostsGo_count (ks : List JSStr) :
    ∀ (doc : List Post) (st : ContentState),
      ((hidePostsGo ks doc st).2).hiddenCount =
        st.hiddenCount +
          (doc.filter fun p => p.isPost && shouldHidePost p ks).length := by
  intro doc
  induction doc with
  | nil => intro st; rfl
  | cons p rest ih =>
    intro st
    unfold hidePostsGo
    by_cases h : (p.isPost && shouldHidePost p ks) = true
    · rw [if_pos h]
      have hA : p.hiddenAttr = false := by
        have hh := h
        simp only [Bool.and_eq_true] at hh
        exact hiddenAttr_false_of_shouldHide p ks hh.2
      simp only [hidePost_of_unmarked p st hA, ih, List.filter_cons, h, if_pos,
        List.length_cons]
      omega
    · rw [if_neg h]
      simp only [ih, List.filter_cons]
      rw [if_neg h]

theorem hidePostsGo_le (ks : List JSStr) (doc : List Post) (st : ContentState) :
    st.hiddenCount ≤ ((hidePostsGo ks doc st).2).hiddenCount := by
  rw [hidePostsGo_count]
  omega

theorem hidePosts_fst (ks : List JSStr) (doc : List Post) (st : ContentState) :
    (hidePosts (some ks) doc st).1 =
      doc.map fun p =>
        if p.isPost && shouldHidePost p ks then
          { p with hiddenAttr := true, display := str "none" }
        else p := by
  show (if ks.length = 0 then (doc, st) else hidePostsGo ks doc st).1 = _
  by_cases h : ks.length = 0
  · rw [if_pos h]
    have he : ks = [] := List.length_eq_zero.1 h
    subst he
    simp [shouldHidePost_nil]
  · rw [if_neg h]
    exact hidePostsGo_fst ks doc st

theorem hidePosts_count (ks : List JSStr) (doc : List Post) (st : ContentState) :
    ((hidePosts (some ks) doc st).2).hiddenCount =
      st.hiddenCount + (doc.filter fun p => p.isPost && shouldHidePost p ks).length := by
  show ((if ks.length = 0 then (doc, st) else hidePostsGo ks doc st).2).hiddenCount = _
  by_cases h : ks.length = 0
  · rw [if_pos h]
    have he : ks = [] := List.length_eq_zero.1 h
    subst he
    simp [shouldHidePost_nil]
  · rw [if_neg h]
    exact hidePostsGo_count ks doc st

/-! Claim theorems. -/

/-- C1: shouldHidePost returns true iff the post does not already carry the
marker attribute and some keyword with non-empty trimmed form is, after
lowercasing, a substring of the post's lowercased text; empty and
whitespace-only keywords never hide a post. -/
theorem shouldHidePost_iff_spec (post : Post) (keywords : List JSStr) :
    shouldHidePost post keywords = true ↔
      post.hiddenAttr = false ∧
        ∃ k ∈ keywords, jsTrim k ≠ [] ∧ jsToLower k <:+: jsToLower post.text := by
  unfold shouldHidePost
  cases h : post.hiddenAttr
  · simp only [Bool.false_eq_true, if_false, List.any_eq_true, true_and]
    constructor
    · rintro ⟨k, hk, hcond⟩
      by_cases ht : jsTrim k = []
      · rw [if_pos ht] at hcond
        exact absurd hcond (by simp)
      · rw [if_neg ht] at hcond
        exact ⟨k, hk, ht, of_decide_eq_true hcond⟩
    · rintro ⟨k, hk, ht, hinf⟩
      exact ⟨k, hk, by rw [if_neg ht]; exact decide_eq_true hinf⟩
  · simp

/-- C4: hidePost on a post not yet carrying the marker sets the marker, sets
display to none, and increments the counter by exactly 1, persisting the new
value; a hidePosts scan increases the counter by exactly the number of posts
newly hidden in that scan (those matching the selectors and satisfying
shouldHidePost). -/
theorem hidePost_increments_and_scan_counts :
    (∀ (p : Post) (st : ContentState), p.hiddenAttr = false →
        hidePost p st =
          ({ p with hiddenAttr := true, display := str "none" },
           { hiddenCount := st.hiddenCount + 1,
             storedHiddenCount := st.hiddenCount + 1 })) ∧
    (∀ (ks : List JSStr) (doc : List Post) (st : ContentState),
        ((hidePosts (some ks) doc st).2).hiddenCount =
          st.hiddenCount +
            (doc.filter fun p => p.isPost && shouldHidePost p ks).length) :=
  ⟨hidePost_of_unmarked, hidePosts_count⟩

/-- Witness for C4 at a concrete post and scan. -/
theorem hidePost_increments_and_scan_counts_witness :
    hidePost ⟨false, str "crypto talk", str "", true⟩ ⟨3, 3⟩ =
      (⟨true, str "crypto talk", str "none", true⟩, ⟨4, 4⟩) ∧
    ((hidePosts (some [str "crypto"])
        [⟨false, str "crypto talk", str "", true⟩, ⟨false, str "cats", str "", true⟩]
        ⟨3, 3⟩).2).hiddenCount = 4 := by
  constructor
  · exact hidePost_increments_and_scan_counts.1 _ _ rfl
  · rw [hidePost_increments_and_scan_counts.2 [str "crypto"]
      [⟨false, str "crypto talk", str "", true⟩, ⟨false, str "cats", str "", true⟩] ⟨3, 3⟩]
    decide

/-- C5: the marker prevents reprocessing — shouldHidePost is false on every
marked post, hidePost leaves a marked post, the counter and storage
unchanged, and hidePost is idempotent. -/
theorem marker_prevents_reprocessing :
    (∀ (p : Post) (ks : List JSStr), p.hiddenAttr = true →
        shouldHidePost p ks = false) ∧
    (∀ (p : Post) (st : ContentState), p.hiddenAttr = true →
        hidePost p st = (p, st)) ∧
    (∀ (p : Post) (st : ContentState),
        hidePost (hidePost p st).1 (hidePost p st).2 = hidePost p st) := by
  refine ⟨shouldHidePost_of_marked, hidePost_of_marked, ?_⟩
  intro p st
  cases hA : p.hiddenAttr
  · rw [hidePost_of_unmarked p st hA]
    exact hidePost_of_marked _ _ rfl
  · rw [hidePost_of_marked p st hA]
    exact hidePost_of_marked p st hA

/-- Witness for C5 at a concrete marked post. -/
theorem marker_prevents_reprocessing_witness :
    shouldHidePost ⟨true, str "crypto talk", str "none", true⟩ [str "crypto"] = false ∧
    hidePost ⟨true, str "crypto talk", str "none", true⟩ ⟨7, 7⟩ =
      (⟨true, str "crypto talk", str "none", true⟩, ⟨7, 7⟩) :=
  ⟨marker_prevents_reprocessing.1 _ _ rfl, marker_prevents_reprocessing.2.1 _ _ rfl⟩

/-- C7: hidePosts hides only matching posts — it maps exactly the unmarked
selector-matching elements whose lowercased text contains a non-blank
keyword to their hidden form, leaves every other element unchanged, and
changes nothing when the keyword list is missing or empty. -/
theorem hidePosts_frame :
    (∀ (doc : List Post) (st : ContentState), hidePosts none doc st = (doc, st)) ∧
    (∀ (doc : List Post) (st : ContentState), hidePosts (some []) doc st = (doc, st)) ∧
    (∀ (ks : List JSStr) (doc : List Post) (st : ContentState),
        (hidePosts (some ks) doc st).1 =
          doc.map fun p =>
            if p.isPost && shouldHidePost p ks then
              { p with hiddenAttr := true, display := str "none" }
            else p) :=
  ⟨fun _ _ => rfl, fun _ _ => rfl, hidePosts_fst⟩

/-- C9: toggleEnabled(false) restores the display of every marked post while
leaving the marker in place, and a subsequent toggleEnabled(true) skips every
marked post, so a post hidden before the toggle stays visible after it —
toggling off and back on is not the identity on post visibility. -/
theorem toggle_off_on_not_identity :
    (∀ st : PageState,
        (onToggleEnabled false st).doc =
          st.doc.map (fun p =>
            if p.hiddenAttr then { p with display := str "" } else p) ∧
        (onToggleEnabled true (onToggleEnabled false st)).doc =
          st.doc.map fun p =>
            if p.hiddenAttr then { p with display := str "" }
            else if p.isPost && shouldHidePost p st.keywords then
              { p with hiddenAttr := true, display := str "none" }
            else p) ∧
    ((onToggleEnabled true (onToggleEnabled false
        ⟨[⟨true, str "crypto talk", str "none", true⟩], true,
          [str "crypto"], ⟨1, 1⟩⟩)).doc =
      [⟨true, str "crypto talk", str "", true⟩] ∧
     (onToggleEnabled true (onToggleEnabled false
        ⟨[⟨true, str "crypto talk", str "none", true⟩], true,
          [str "crypto"], ⟨1, 1⟩⟩)).doc ≠
      [⟨true, str "crypto talk", str "none", true⟩]) := by
  constructor
  · intro st
    refine ⟨rfl, ?_⟩
    show (hidePosts (some st.keywords)
      (st.doc.map fun p =>
        if p.hiddenAttr then { p with display := str "" } else p) _).1 = _
    rw [hidePosts_fst, List.map_map]
    apply List.map_congr_left
    intro p _
    simp only [Function.comp_apply]
    by_cases hp : p.hiddenAttr = true
    · rw [if_pos hp, if_pos hp]
      have hm : shouldHidePost { p with display := str "" } st.keywords = false :=
        shouldHidePost_of_marked _ _ hp
      rw [hm]
      simp
    · rw [if_neg hp, if_neg hp]
  · exact ⟨by decide, by decide⟩

/-- C6: the hidden counter's reset semantics are inconsistent across the two
content-script versions — the v1 updateKeywords handler never decreases the
counter and only runs an additional hiding pass, while the v2 handler resets
the counter and the markers; on a concrete page holding one marked hidden
post with counter 5, the two handlers produce different counters (0 versus 5)
and different post visibility. -/
theorem updateKeywords_reset_divergence :
    (∀ (ks : Option (List JSStr)) (st : PageState),
        st.cs.hiddenCount ≤ (onUpdateKeywordsV1 ks st).cs.hiddenCount) ∧
    ((onUpdateKeywordsV2 (some [str "zzz"])
        ⟨[⟨true, str "crypto talk", str "none", true⟩], true,
          [str "crypto"], ⟨5, 5⟩⟩).cs.hiddenCount = 0 ∧
     (onUpdateKeywordsV1 (some [str "zzz"])
        ⟨[⟨true, str "crypto talk", str "none", true⟩], true,
          [str "crypto"], ⟨5, 5⟩⟩).cs.hiddenCount = 5 ∧
     (onUpdateKeywordsV2 (some [str "zzz"])
        ⟨[⟨true, str "crypto talk", str "none", true⟩], true,
          [str "crypto"], ⟨5, 5⟩⟩).doc =
       [⟨false, str "crypto talk", str "", true⟩] ∧
     (onUpdateKeywordsV1 (some [str "zzz"])
        ⟨[⟨true, str "crypto talk", str "none", true⟩], true,
          [str "crypto"], ⟨5, 5⟩⟩).doc =
       [⟨true, str "crypto talk", str "none", true⟩]) := by
  constructor
  · intro ks st
    show st.cs.hiddenCount ≤
      ((hidePosts (some (ks.getD [])) st.doc st.cs).2).hiddenCount
    rw [hidePosts_count]
    omega
  · exact ⟨by decide, by decide, by decide, by decide⟩

/-- C10: with no saved settings both scripts default to filter enabled,
empty keywords and hidden count 0, and the initial hiding pass is skipped
whenever the loaded keyword list is empty. -/
theorem default_settings :
    (∀ doc : List Post,
        initializeExtension ⟨none, none, none⟩ doc = (⟨true, [], 0⟩, doc)) ∧
    loadKeywords ⟨none, none, none⟩ = ⟨[], true, 0⟩ ∧
    (∀ (s : StorageData) (doc : List Post),
        (initializeExtension s doc).1.currentKeywords = [] →
        (initializeExtension s doc).2 = doc) := by
  refine ⟨fun doc => rfl, rfl, ?_⟩
  intro s doc h
  have hk : s.keywords.getD [] = [] := h
  show (if (s.isEnabled != some false) = true ∧ 0 < (s.keywords.getD []).length
    then _ else doc) = doc
  rw [if_neg]
  rintro ⟨-, hlt⟩
  rw [hk] at hlt
  exact absurd hlt (by simp)

/-- Witness for C10 at concrete storage contents with an empty saved
keyword list. -/
theorem default_settings_witness :
    (initializeExtension ⟨some [], some true, some 5⟩
      [⟨false, str "crypto talk", str "", true⟩]).2 =
      [⟨false, str "crypto talk", str "", true⟩] :=
  default_settings.2.2 ⟨some [], some true, some 5⟩
    [⟨false, str "crypto talk", str "", true⟩] rfl

theorem toNat_ofNat_valid (n : Nat) (h : n.isValidChar) : (Char.ofNat n).toNat = n := by
  rw [Char.ofNat, dif_pos h]
  rfl

theorem charToLower_idem (c : Char) : c.toLower.toLower = c.toLower := by
  simp only [Char.toLower]
  by_cases h : c.toNat ≥ 65 ∧ c.toNat ≤ 90
  · rw [if_pos h]
    have ht : (Char.ofNat (c.toNat + 32)).toNat = c.toNat + 32 :=
      toNat_ofNat_valid _ (Or.inl (by omega))
    rw [if_neg (by rw [ht]; omega)]
  · rw [if_neg h, if_neg h]

theorem charToLower_fixed_of_mem_jsToLower (s : JSStr) (c : Char)
    (h : c ∈ jsToLower s) : c.toLower = c := by
  unfold jsToLower at h
  obtain ⟨d, _, rfl⟩ := List.mem_map.1 h
  exact charToLower_idem d

theorem mem_of_mem_jsSplitCommaAux :
    ∀ (s acc piece : JSStr), piece ∈ jsSplitCommaAux s acc →
      ∀ c ∈ piece, c ∈ s ∨ c ∈ acc := by
  intro s
  induction s with
  | nil =>
    intro acc piece hp c hc
    unfold jsSplitCommaAux at hp
    rw [List.mem_singleton] at hp
    subst hp
    exact Or.inr (List.mem_reverse.1 hc)
  | cons a s ih =>
    intro acc piece hp c hc
    unfold jsSplitCommaAux at hp
    by_cases ha : a = ','
    · rw [if_pos ha] at hp
      rcases List.mem_cons.1 hp with h1 | h1
      · subst h1
        exact Or.inr (List.mem_reverse.1 hc)
      · rcases ih [] piece h1 c hc with h2 | h2
        · exact Or.inl (List.mem_cons_of_mem a h2)
        · exact absurd h2 (List.not_mem_nil c)
    · rw [if_neg ha] at hp
      rcases ih (a :: acc) piece hp c hc with h2 | h2
      · exact Or.inl (List.mem_cons_of_mem a h2)
      · rcases List.mem_cons.1 h2 with h3 | h3
        · exact Or.inl (h3 ▸ List.mem_cons_self a s)
        · exact Or.inr h3

theorem length_le_of_mem_jsSplitCommaAux :
    ∀ (s acc piece : JSStr), piece ∈ jsSplitCommaAux s acc →
      piece.length ≤ s.length + acc.length := by
  intro s
  induction s with
  | nil =>
    intro acc piece hp
    unfold jsSplitCommaAux at hp
    rw [List.mem_singleton] at hp
    subst hp
    simp
  | cons a s ih =>
    intro acc piece hp
    unfold jsSplitCommaAux at hp
    by_cases ha : a = ','
    · rw [if_pos ha] at hp
      rcases List.mem_cons.1 hp with h1 | h1
      · subst h1
        simp only [List.length_reverse, List.length_cons]
        omega
      · have := ih [] piece h1
        simp only [List.length_nil, List.length_cons] at this ⊢
        omega
    · rw [if_neg ha] at hp
      have := ih (a :: acc) piece hp
      simp only [List.length_cons] at this ⊢
      omega

theorem jsSplitCommaAux_no_comma :
    ∀ (s acc : JSStr), (',' ∈ s → False) → jsSplitCommaAux s acc = [acc.reverse ++ s] := by
  intro s
  induction s with
  | nil =>
    intro acc _
    unfold jsSplitCommaAux
    simp
  | cons a s ih =>
    intro acc h
    unfold jsSplitCommaAux
    have ha : ¬ a = ',' := fun he => h (he ▸ List.mem_cons_self a s)
    rw [if_neg ha, ih (a :: acc) (fun hm => h (List.mem_cons_of_mem a hm))]
    simp

theorem jsTrim_sublist (s : JSStr) : List.Sublist (jsTrim s) s := by
  unfold jsTrim
  have h2 : List.Sublist
      ((s.dropWhile Char.isWhitespace).reverse.dropWhile Char.isWhitespace).reverse
      (s.dropWhile Char.isWhitespace).reverse.reverse :=
    List.Sublist.reverse (List.dropWhile_sublist _)
  rw [List.reverse_reverse] at h2
  exact h2.trans (List.dropWhile_sublist _)

theorem jsTrim_subset (s : JSStr) (c : Char) (h : c ∈ jsTrim s) : c ∈ s :=
  (jsTrim_sublist s).subset h

theorem jsTrim_length_le (s : JSStr) : (jsTrim s).length ≤ s.length :=
  (jsTrim_sublist s).length_le

/-- Every keyword batch appended by addKeyword consists of non-empty
lowercase strings of at most 100 characters that were absent from the list
before the call. -/
theorem addKeyword_newKeywords_spec (ks : List JSStr) (raw : JSStr) :
    ∃ newKs : List JSStr, addKeyword ks raw = ks ++ newKs ∧
      ∀ k ∈ newKs, k ∉ ks ∧ k ≠ [] ∧ (∀ c ∈ k, Char.toLower c = c) ∧
        k.length ≤ 100 := by
  unfold addKeyword
  by_cases h1 : jsToLower (jsTrim raw) = []
  · exact ⟨[], by rw [if_pos h1]; simp, by simp⟩
  rw [if_neg h1]
  by_cases h2 : 100 < (jsToLower (jsTrim raw)).length
  · exact ⟨[], by rw [if_pos h2]; simp, by simp⟩
  rw [if_neg h2]
  by_cases h3 : 50 ≤ ks.length
  · exact ⟨[], by rw [if_pos h3]; simp, by simp⟩
  rw [if_neg h3]
  by_cases h4 : ((jsSplitComma (jsToLower (jsTrim raw))).map jsTrim).filter
      (fun k => decide (0 < k.length) && !(ks.contains k)) = []
  · exact ⟨[], by rw [if_pos h4]; simp, by simp⟩
  rw [if_neg h4]
  refine ⟨_, rfl, ?_⟩
  intro k hk
  have hfil := List.of_mem_filter hk
  have hmem := List.mem_of_mem_filter hk
  simp only [Bool.and_eq_true, decide_eq_true_eq, Bool.not_eq_true'] at hfil
  obtain ⟨hlen, hcont⟩ := hfil
  obtain ⟨piece, hpiece, rfl⟩ := List.mem_map.1 hmem
  refine ⟨?_, ?_, ?_, ?_⟩
  · intro hin
    simp only [List.contains, List.elem_eq_mem, decide_eq_false_iff_not] at hcont
    exact hcont hin
  · intro he
    rw [he] at hlen
    exact absurd hlen (by simp)
  · intro c hc
    have hcp : c ∈ piece := jsTrim_subset piece c hc
    rcases mem_of_mem_jsSplitCommaAux _ _ _ hpiece c hcp with h5 | h5
    · exact charToLower_fixed_of_mem_jsToLower _ _ h5
    · exact absurd h5 (List.not_mem_nil c)
  · have hp1 : piece.length ≤ (jsToLower (jsTrim raw)).length + ([] : JSStr).length :=
      length_le_of_mem_jsSplitCommaAux _ _ _ hpiece
    have hp2 : (jsTrim piece).length ≤ piece.length := jsTrim_length_le piece
    simp only [List.length_nil] at hp1
    omega

/-- C2 counterexample: addKeyword applied to the empty list and the single
comma-separated input a,a inserts the keyword a twice, so the resulting
stored keyword list contains a keyword twice. -/
theorem addKeyword_duplicate_counterexample :
    addKeyword [] (str "a,a") = [str "a", str "a"] ∧
    ¬ (addKeyword [] (str "a,a")).Nodup :=
  ⟨by decide, by decide⟩

/-- C2 (amended): removeKeyword preserves lowercase-ness and freedom from
duplicates; addKeyword appends only lowercase keywords that were absent from
the list before the call, but a comma-separated batch can insert the same
new keyword twice; and importSettings installs the imported array verbatim,
applying no normalization. -/
theorem keyword_list_invariants_amended :
    (∀ (ks : List JSStr) (kw : JSStr),
        (ks.Nodup → (removeKeyword ks kw).Nodup) ∧
        ((∀ k ∈ ks, ∀ c ∈ k, Char.toLower c = c) →
          ∀ k ∈ removeKeyword ks kw, ∀ c ∈ k, Char.toLower c = c)) ∧
    (∀ (ks : List JSStr) (raw : JSStr),
        ∃ newKs : List JSStr, addKeyword ks raw = ks ++ newKs ∧
          ∀ k ∈ newKs, k ∉ ks ∧ ∀ c ∈ k, Char.toLower c = c) ∧
    (∀ (cur imported : List JSStr), importSettings cur (some imported) = imported) := by
  refine ⟨?_, ?_, fun _ _ => rfl⟩
  · intro ks kw
    constructor
    · intro h
      exact h.filter _
    · intro h k hk
      exact h k (List.mem_of_mem_filter hk)
  · intro ks raw
    obtain ⟨newKs, he, hall⟩ := addKeyword_newKeywords_spec ks raw
    exact ⟨newKs, he, fun k hk => ⟨(hall k hk).1, (hall k hk).2.2.1⟩⟩

/-- Witness for C2 (amended) at a concrete two-element keyword list. -/
theorem keyword_list_invariants_amended_witness :
    (removeKeyword [str "a", str "b"] (str "a")).Nodup ∧
    (∀ k ∈ removeKeyword [str "a", str "b"] (str "a"),
      ∀ c ∈ k, Char.toLower c = c) :=
  ⟨(keyword_list_invariants_amended.1 [str "a", str "b"] (str "a")).1 (by decide),
   (keyword_list_invariants_amended.1 [str "a", str "b"] (str "a")).2 (by decide)⟩

/-- C3 counterexample: with 49 keywords already present, addKeyword on the
comma-separated input a,b appends two keywords at once, leaving 51 keywords
in the list. -/
theorem addKeyword_over_fifty_counterexample :
    ((List.range 49).map fun i => List.replicate (i + 1) 'z').length = 49 ∧
    (addKeyword ((List.range 49).map fun i => List.replicate (i + 1) 'z')
      (str "a,b")).length = 51 :=
  ⟨by decide, by decide⟩

/-- C3 (amended): addKeyword rejects the input, leaving the list unchanged,
when 50 keywords are already present or when the normalized input exceeds
100 characters; every keyword in the list after the call has at most 100
characters when that held before; and the 50-keyword bound after the call is
guaranteed only when the normalized input contains no comma — a
comma-separated input can push the list past 50. -/
theorem addKeyword_bounds_amended :
    (∀ (ks : List JSStr) (raw : JSStr), 50 ≤ ks.length → addKeyword ks raw = ks) ∧
    (∀ (ks : List JSStr) (raw : JSStr),
        100 < (jsToLower (jsTrim raw)).length → addKeyword ks raw = ks) ∧
    (∀ (ks : List JSStr) (raw : JSStr), (∀ k ∈ ks, k.length ≤ 100) →
        ∀ k ∈ addKeyword ks raw, k.length ≤ 100) ∧
    (∀ (ks : List JSStr) (raw : JSStr), ks.length ≤ 50 →
        (',' ∈ jsToLower (jsTrim raw) → False) →
        (addKeyword ks raw).length ≤ 50) := by
  refine ⟨?_, ?_, ?_, ?_⟩
  · intro ks raw h
    unfold addKeyword
    by_cases h1 : jsToLower (jsTrim raw) = []
    · rw [if_pos h1]
    · rw [if_neg h1]
      by_cases h2 : 100 < (jsToLower (jsTrim raw)).length
      · rw [if_pos h2]
      · rw [if_neg h2, if_pos h]
  · intro ks raw h
    unfold addKeyword
    by_cases h1 : jsToLower (jsTrim raw) = []
    · rw [if_pos h1]
    · rw [if_neg h1, if_pos h]
  · intro ks raw h k hk
    obtain ⟨newKs, he, hall⟩ := addKeyword_newKeywords_spec ks raw
    rw [he] at hk
    rcases List.mem_append.1 hk with h1 | h1
    · exact h k h1
    · exact (hall k h1).2.2.2
  · intro ks raw h50 hnc
    unfold addKeyword
    by_cases h1 : jsToLower (jsTrim raw) = []
    · rw [if_pos h1]
      exact h50
    rw [if_neg h1]
    by_cases h2 : 100 < (jsToLower (jsTrim raw)).length
    · rw [if_pos h2]
      exact h50
    rw [if_neg h2]
    by_cases h3 : 50 ≤ ks.length
    · rw [if_pos h3]
      exact h50
    rw [if_neg h3]
    have hsplit : jsSplitComma (jsToLower (jsTrim raw)) = [jsToLower (jsTrim raw)] := by
      unfold jsSplitComma
      rw [jsSplitCommaAux_no_comma _ _ hnc]
      simp
    by_cases h4 : ((jsSplitComma (jsToLower (jsTrim raw))).map jsTrim).filter
        (fun k => decide (0 < k.length) && !(ks.contains k)) = []
    · rw [if_pos h4]
      exact h50
    rw [if_neg h4, List.length_append]
    have hfl : (((jsSplitComma (jsToLower (jsTrim raw))).map jsTrim).filter
        (fun k => decide (0 < k.length) && !(ks.contains k))).length ≤ 1 := by
      rw [hsplit]
      simpa using List.length_filter_le
        (fun k => decide (0 < k.length) && !(ks.contains k))
        ([jsToLower (jsTrim raw)].map jsTrim)
    omega

/-- Witness for C3 (amended) at concrete lists and inputs. -/
theorem addKeyword_bounds_amended_witness :
    addKeyword (List.replicate 50 (str "a")) (str "b") = List.replicate 50 (str "a") ∧
    addKeyword [] (List.replicate 101 'x') = [] ∧
    (∀ k ∈ addKeyword [str "a"] (str "bb"), k.length ≤ 100) ∧
    (addKeyword [str "a"] (str "bb")).length ≤ 50 :=
  ⟨addKeyword_bounds_amended.1 _ _ (by decide),
   addKeyword_bounds_amended.2.1 _ _ (by decide),
   addKeyword_bounds_amended.2.2.1 _ _ (by decide),
   addKeyword_bounds_amended.2.2.2 _ _ (by decide) (by decide)⟩

theorem runObsV2_cons_no_fire (enabled : Bool) (ks : List JSStr) (t : Nat)
    (ps : List Post) (rest : List (Nat × List Post)) (d : Nat) (acc : List Post)
    (fires : List (Nat × List Post)) (h : ¬ d ≤ t) :
    runObsV2 enabled ks ((t, ps) :: rest) ⟨some d, acc, fires⟩ =
      runObsV2 enabled ks rest ⟨some (t + 100), setAddAll acc ps, fires⟩ := by
  simp only [runObsV2]
  rw [if_neg h]

theorem runObsV2_chain (enabled : Bool) (ks : List JSStr) :
    ∀ (events : List (Nat × List Post)) (st : ObsState) (d : Nat),
      st.pending = some d → burstAfter d events = true →
      runObsV2 enabled ks events st =
        fireV2 enabled ks (finalDeadline d events)
          { pending := some (finalDeadline d events),
            acc := events.foldl (fun a e => setAddAll a e.2) st.acc,
            fires := st.fires } := by
  intro events
  induction events with
  | nil =>
    intro st d hp _
    obtain ⟨pending, acc, fires⟩ := st
    simp only at hp
    subst hp
    rfl
  | cons e rest ih =>
    obtain ⟨t, ps⟩ := e
    intro st d hp hburst
    obtain ⟨pending, acc, fires⟩ := st
    simp only at hp
    subst hp
    simp only [burstAfter, Bool.and_eq_true, decide_eq_true_eq] at hburst
    obtain ⟨hlt, hrest⟩ := hburst
    rw [runObsV2_cons_no_fire enabled ks t ps rest d acc fires (by omega)]
    exact ih ⟨some (t + 100), setAddAll acc ps, fires⟩ (t + 100) rfl hrest

theorem runObsV1_chain :
    ∀ (events : List (Nat × List Post)) (st : ObsV1State) (d : Nat),
      st.pending = some d → burstAfter d events = true →
      runObsV1 events st =
        fireV1 (finalDeadline d events)
          { pending := some (finalDeadline d events),
            batch := events.foldl (fun _ e => e.2) st.batch,
            fires := st.fires } := by
  intro events
  induction events with
  | nil =>
    intro st d hp _
    obtain ⟨pending, batch, fires⟩ := st
    simp only at hp
    subst hp
    rfl
  | cons e rest ih =>
    obtain ⟨t, ps⟩ := e
    intro st d hp hburst
    obtain ⟨pending, batch, fires⟩ := st
    simp only at hp
    subst hp
    simp only [burstAfter, Bool.and_eq_true, decide_eq_true_eq] at hburst
    obtain ⟨hlt, hrest⟩ := hburst
    show runObsV1 rest
        ⟨some (t + 100), ps,
         (if d ≤ t then fireV1 d ⟨some d, batch, fires⟩
           else ⟨none, batch, fires⟩).fires⟩ = _
    rw [if_neg (by omega)]
    exact ih ⟨some (t + 100), ps, fires⟩ (t + 100) rfl hrest

/-- C8 (amended): both observers debounce at 100 ms — each callback cancels
any pending timer and schedules processing 100 ms later, so a burst of
mutation batches each arriving within 100 ms of its predecessor yields
exactly one processing pass, 100 ms after the last mutation. In content.js
(v2) that pass covers the accumulated set of all the burst's candidate
posts; in the older script (v1) it covers only the final callback's batch. -/
theorem debounce_burst_single_pass :
    (∀ (t0 : Nat) (ps0 : List Post) (rest : List (Nat × List Post)) (ks : List JSStr),
        ks ≠ [] →
        burstAfter (t0 + 100) rest = true →
        ((t0, ps0) :: rest).foldl (fun a e => setAddAll a e.2) ([] : List Post) ≠ [] →
        runObsV2 true ks ((t0, ps0) :: rest) ⟨none, [], []⟩ =
          ⟨none, [],
           [(finalDeadline (t0 + 100) rest,
             ((t0, ps0) :: rest).foldl (fun a e => setAddAll a e.2) [])]⟩) ∧
    (∀ (t0 : Nat) (ps0 : List Post) (rest : List (Nat × List Post)),
        burstAfter (t0 + 100) rest = true →
        runObsV1 ((t0, ps0) :: rest) ⟨none, [], []⟩ =
          ⟨none, rest.foldl (fun _ e => e.2) ps0,
           [(finalDeadline (t0 + 100) rest, rest.foldl (fun _ e => e.2) ps0)]⟩) := by
  constructor
  · intro t0 ps0 rest ks hks hburst hacc
    show runObsV2 true ks rest ⟨some (t0 + 100), setAddAll [] ps0, []⟩ = _
    rw [runObsV2_chain true ks rest ⟨some (t0 + 100), setAddAll [] ps0, []⟩
      (t0 + 100) rfl hburst]
    unfold fireV2
    rw [if_pos ⟨rfl, hks, hacc⟩]
    rfl
  · intro t0 ps0 rest hburst
    show runObsV1 rest ⟨some (t0 + 100), ps0, []⟩ = _
    rw [runObsV1_chain rest ⟨some (t0 + 100), ps0, []⟩ (t0 + 100) rfl hburst]
    rfl

/-- Witness for C8 (amended) on a concrete two-batch burst 50 ms apart. -/
theorem debounce_burst_single_pass_witness :
    runObsV2 true [str "crypto"]
        [(0, [⟨false, str "crypto talk", str "", true⟩]),
         (50, [⟨false, str "crypto news", str "", true⟩])] ⟨none, [], []⟩ =
      ⟨none, [],
       [(150, [⟨false, str "crypto talk", str "", true⟩,
               ⟨false, str "crypto news", str "", true⟩])]⟩ ∧
    runObsV1 [(0, [⟨false, str "crypto talk", str "", true⟩]),
              (50, [⟨false, str "crypto news", str "", true⟩])] ⟨none, [], []⟩ =
      ⟨none, [⟨false, str "crypto news", str "", true⟩],
       [(150, [⟨false, str "crypto news", str "", true⟩])]⟩ := by
  constructor
  · rw [debounce_burst_single_pass.1 0 [⟨false, str "crypto talk", str "", true⟩]
      [(50, [⟨false, str "crypto news", str "", true⟩])] [str "crypto"]
      (by decide) (by decide) (by decide)]
    decide
  · rw [debounce_burst_single_pass.2 0 [⟨false, str "crypto talk", str "", true⟩]
      [(50, [⟨false, str "crypto news", str "", true⟩])] (by decide)]
    decide

/-- C8 counterexample: in the older content script, a burst of two mutation
batches 50 ms apart yields a single processing pass covering only the second
batch — the first batch's candidate post belongs to the accumulated set but
is absent from the pass, so the pass is not over the accumulated set. -/
theorem debounce_v1_drops_first_batch :
    (runObsV1 [(0, [⟨false, str "crypto talk", str "", true⟩]),
               (50, [⟨false, str "crypto news", str "", true⟩])]
        ⟨none, [], []⟩).fires =
      [(150, [⟨false, str "crypto news", str "", true⟩])] ∧
    setAddAll (setAddAll [] [⟨false, str "crypto talk", str "", true⟩])
        [⟨false, str "crypto news", str "", true⟩] =
      [⟨false, str "crypto talk", str "", true⟩,
       ⟨false, str "crypto news", str "", true⟩] ∧
    (⟨false, str "crypto talk", str "", true⟩ : Post) ∉
      ([⟨false, str "crypto news", str "", true⟩] : List Post) :=
  ⟨by decide, by decide, by decide⟩

/-- Witness for C1 at a concrete post and keyword list containing a
whitespace-only keyword and a matching keyword. -/
theorem shouldHidePost_iff_spec_witness :
    shouldHidePost ⟨false, str "Big CRYPTO news", str "", true⟩
      [str " ", str "crypto"] = true :=
  (shouldHidePost_iff_spec ⟨false, str "Big CRYPTO news", str "", true⟩
      [str " ", str "crypto"]).2
    ⟨rfl, str "crypto", by decide, by decide, by decide⟩

/-- Witness for C6 at a concrete page state. -/
theorem updateKeywords_reset_divergence_witness :
    (⟨[], true, [], ⟨2, 2⟩⟩ : PageState).cs.hiddenCount ≤
      (onUpdateKeywordsV1 (some [str "a"]) ⟨[], true, [], ⟨2, 2⟩⟩).cs.hiddenCount :=
  updateKeywords_reset_divergence.1 (some [str "a"]) ⟨[], true, [], ⟨2, 2⟩⟩

/-- Witness for C7 at a concrete document with a matching post and a
non-matching element. -/
theorem hidePosts_frame_witness :
    hidePosts none [⟨false, str "crypto talk", str "", true⟩] ⟨0, 0⟩ =
      ([⟨false, str "crypto talk", str "", true⟩], ⟨0, 0⟩) ∧
    (hidePosts (some [str "crypto"])
        [⟨false, str "crypto talk", str "", true⟩,
         ⟨false, str "cats", str "", false⟩] ⟨0, 0⟩).1 =
      ([⟨false, str "crypto talk", str "", true⟩,
        ⟨false, str "cats", str "", false⟩] : List Post).map fun p =>
        if p.isPost && shouldHidePost p [str "crypto"] then
          { p with hiddenAttr := true, display := str "none" }
        else p :=
  ⟨hidePosts_frame.1 _ _, hidePosts_frame.2.2 _ _ _⟩

/-- Witness for C9 at a concrete page holding one hidden marked post. -/
theorem toggle_off_on_not_identity_witness :
    (onToggleEnabled false
        ⟨[⟨true, str "crypto talk", str "none", true⟩], true,
          [str "crypto"], ⟨1, 1⟩⟩).doc =
      ([⟨true, str "crypto talk", str "none", true⟩] : List Post).map fun p =>
        if p.hiddenAttr then { p with display := str "" } else p :=
  (toggle_off_on_not_identity.1
      ⟨[⟨true, str "crypto talk", str "none", true⟩], true,
        [str "crypto"], ⟨1, 1⟩⟩).1

end LFC
